import Mathlib

/-!
Verification of the daycare attendance / meal-reimbursement tracker
(`src/App.tsx`).  The computational core of the app is shallowly embedded
here: JS strings are modelled as lists of characters (`JStr`, the sequence
of code units; all data handled by the app is ASCII), JS numbers produced
by `Number(...)` on string slices are modelled by `JSNum` (an integer or
`NaN`), and dollar amounts are modelled as rationals.
-/

/-- A JS string, as its list of characters.  `String.prototype.slice(a, b)`
becomes `(s.drop a).take (b - a)`. -/
abbrev JStr := List Char

/-- A JS number as produced by `Number(...)` on the string fragments this
app slices out of time strings: either an actual integer or `NaN`. -/
inductive JSNum where
  | nan : JSNum
  | val : Int → JSNum
deriving DecidableEq, Repr

/-- Integer value of a digit string (the value JS `Number` gives an
all-digits string). -/
def digitsVal (s : JStr) : Int :=
  s.foldl (fun acc ch => acc * 10 + ((ch.toNat : Int) - ('0'.toNat : Int))) 0

/-- JS `Number(s)` restricted to the string shapes this app ever feeds it:
`""` is 0, an all-digit string is its decimal value, anything else is `NaN`.
(Signed/decimal/hex literals never arise from slicing `HH:MM`-shaped input
and are mapped to `NaN`.) -/
def jsStr2num (s : JStr) : JSNum :=
  if s = [] then .val 0
  else if s.all Char.isDigit then .val (digitsVal s)
  else .nan

/-- JS multiplication by a constant, propagating `NaN`. -/
def jsMul (a : JSNum) (k : Int) : JSNum :=
  match a with
  | .nan => .nan
  | .val n => .val (n * k)

/-- JS addition, propagating `NaN`. -/
def jsAdd (a b : JSNum) : JSNum :=
  match a, b with
  | .val x, .val y => .val (x + y)
  | _, _ => .nan

/-- JS `<=` on numbers: false whenever either side is `NaN`. -/
def jsLeB (a b : JSNum) : Bool :=
  match a, b with
  | .val x, .val y => decide (x ≤ y)
  | _, _ => false

/-- JS `>=` on numbers: false whenever either side is `NaN`. -/
def jsGeB (a b : JSNum) : Bool :=
  match a, b with
  | .val x, .val y => decide (y ≤ x)
  | _, _ => false

/-- JS `<` on numbers: false whenever either side is `NaN`. -/
def jsLtB (a b : JSNum) : Bool :=
  match a, b with
  | .val x, .val y => decide (x < y)
  | _, _ => false

/-- `toMin` from `src/App.tsx`:
`t ? Number(t.slice(0,2)) * 60 + Number(t.slice(3,5)) : null`.
`none` models JS `null` (the argument was `undefined` or the empty string,
both falsy); otherwise the arithmetic on the two slices is performed, `NaN`
included. -/
def toMin (t : Option JStr) : Option JSNum :=
  match t with
  | none => none
  | some s =>
    if s = [] then none
    else some (jsAdd (jsMul (jsStr2num (s.take 2)) 60) (jsStr2num ((s.drop 3).take 2)))

/-- `isValidHHMM` from `src/App.tsx`: the regex `^\d\d:\d\d$` must match and
the minute value must lie in `[0, 1440)`.  (`m !== null && m >= 0 && m < 1440`
is false when `m` is `NaN`.) -/
def isValidHHMM (t : JStr) : Bool :=
  (match t with
   | [a, b, c, d, e] => a.isDigit && b.isDigit && (c == ':') && d.isDigit && e.isDigit
   | _ => false)
  &&
  (match toMin (some t) with
   | some (.val m) => decide (0 ≤ m) && decide (m < 24 * 60)
   | _ => false)

/-- Provenance of a record's times (`"auto" | "manual"`). -/
inductive Source where
  | auto : Source
  | manual : Source
deriving DecidableEq, Repr

/-- `RecordRow` from `src/App.tsx`.  Optional fields are `Option`s; an
`inTime`/`outTime` of `some []` is the stored empty string, `none` is the
absent (`undefined`) field.  `updatedAt` is an opaque server timestamp. -/
structure RecordRow where
  id : JStr
  date : JStr
  kidId : JStr
  kidName : JStr
  inTime : Option JStr
  outTime : Option JStr
  breakfast : Int
  amSnack : Int
  lunch : Int
  pmSnack : Int
  source : Option Source
  editedBy : Option JStr
  editReason : Option JStr
  updatedAt : Option Nat
deriving DecidableEq, Repr

/-- The `MEALS` constant: breakfast window start. -/
def MEALS_breakfast_start : JStr := "09:00".toList
/-- The `MEALS` constant: breakfast window end. -/
def MEALS_breakfast_end : JStr := "09:30".toList
/-- The `MEALS` constant: morning snack instant. -/
def MEALS_amSnack : JStr := "11:00".toList
/-- The `MEALS` constant: lunch instant. -/
def MEALS_lunch : JStr := "13:00".toList
/-- The `MEALS` constant: afternoon snack instant. -/
def MEALS_pmSnack : JStr := "15:00".toList

/-- `calcMeals` from `src/App.tsx`.  `o` is `toMin(r.outTime) ?? 1440`
(nullish coalescing replaces only `null`, not `NaN`); if `toMin(r.inTime)`
is `null` the record is returned as-is, otherwise the four flags are
recomputed.  The TS non-null assertions on the `MEALS` constants are
rendered by `getD .nan` (the constants are valid, so the default is never
taken). -/
def calcMeals (r : RecordRow) : RecordRow :=
  let i? := toMin r.inTime
  let o := (toMin r.outTime).getD (JSNum.val (24 * 60))
  match i? with
  | none => r
  | some i =>
    let bS := (toMin (some MEALS_breakfast_start)).getD .nan
    let bE := (toMin (some MEALS_breakfast_end)).getD .nan
    let mealAt := fun (t : JStr) =>
      let m := (toMin (some t)).getD .nan
      jsLeB i m && jsGeB o m
    { r with
      breakfast := if jsLeB i bE && jsGeB o bS then 1 else 0
      amSnack := if mealAt MEALS_amSnack then 1 else 0
      lunch := if mealAt MEALS_lunch then 1 else 0
      pmSnack := if mealAt MEALS_pmSnack then 1 else 0 }

/-- Statement helper: the minutes-of-day denoted by a well-formed `HH:MM`
string (`60*HH + MM`). -/
def minutesOf (s : JStr) : Int :=
  60 * digitsVal (s.take 2) + digitsVal ((s.drop 3).take 2)

/-- Statement helper: the *effective checkout minute* of a record — the
claim's `o`.  `some 1440` when `outTime` is absent or empty (end of day),
the parsed minute value when `toMin` yields a number, and `none` when
`toMin` yields `NaN` (no effective checkout minute exists). -/
def effOut (r : RecordRow) : Option Int :=
  match toMin r.outTime with
  | none => some (24 * 60)
  | some (.val n) => some n
  | some .nan => none

/-- Statement helper: the 4-tuple of meal flags of a record. -/
def flagsOf (r : RecordRow) : Int × Int × Int × Int :=
  (r.breakfast, r.amSnack, r.lunch, r.pmSnack)

/-- A concrete record builder used for witnesses and counterexamples. -/
def sampleRec (tin tout : Option JStr) (b a l p : Int) : RecordRow :=
  { id := "2024-01-05_k1".toList, date := "2024-01-05".toList, kidId := "k1".toList,
    kidName := "Kid".toList, inTime := tin, outTime := tout,
    breakfast := b, amSnack := a, lunch := l, pmSnack := p,
    source := some .auto, editedBy := none, editReason := some [], updatedAt := none }

lemma isValidHHMM_shape {s : JStr} (h : isValidHHMM s = true) :
    ∃ a b c d : Char, s = [a, b, ':', c, d] ∧
      a.isDigit = true ∧ b.isDigit = true ∧ c.isDigit = true ∧ d.isDigit = true := by
  rcases s with _ | ⟨a, _ | ⟨b, _ | ⟨c, _ | ⟨d, _ | ⟨e, _ | ⟨f, rest⟩⟩⟩⟩⟩⟩ <;>
    simp only [isValidHHMM, Bool.and_eq_true, beq_iff_eq, Bool.false_eq_true, false_and,
      and_false] at h
  obtain ⟨⟨⟨⟨ha, hb⟩, hc⟩, hd⟩, he⟩ := h.1
  subst hc
  exact ⟨a, b, d, e, rfl, ha, hb, hd, he⟩

lemma toMin_of_valid {s : JStr} (h : isValidHHMM s = true) :
    toMin (some s) = some (.val (minutesOf s)) := by
  obtain ⟨a, b, c, d, rfl, ha, hb, hc, hd⟩ := isValidHHMM_shape h
  simp [toMin, jsStr2num, jsMul, jsAdd, minutesOf, digitsVal, List.all_cons, ha, hb, hc, hd]
  ring

/-- `toMin` yields `null` exactly on an absent or empty string, and then
`calcMeals` is the identity. -/
lemma calcMeals_of_empty {r : RecordRow} (h : r.inTime = none ∨ r.inTime = some []) :
    calcMeals r = r := by
  rcases h with h | h <;> simp [calcMeals, toMin, h]

lemma tm_bS : (toMin (some MEALS_breakfast_start)).getD .nan = .val 540 := by decide
lemma tm_bE : (toMin (some MEALS_breakfast_end)).getD .nan = .val 570 := by decide
lemma tm_am : (toMin (some MEALS_amSnack)).getD .nan = .val 660 := by decide
lemma tm_lu : (toMin (some MEALS_lunch)).getD .nan = .val 780 := by decide
lemma tm_pm : (toMin (some MEALS_pmSnack)).getD .nan = .val 900 := by decide

/-- C1: for a record with a valid `inTime` of `i` minutes and an effective
checkout minute `o` (1440 when `outTime` is absent/empty), `calcMeals` sets
breakfast to 1 iff `i ≤ 570 ∧ o ≥ 540`, and each instant meal (11:00,
13:00, 15:00) to 1 iff the interval contains the instant; every other field
of the record is returned unchanged. -/
theorem calcMeals_valid_flags (r : RecordRow) (s : JStr) (o : Int)
    (hin : r.inTime = some s) (hv : isValidHHMM s = true) (ho : effOut r = some o) :
    calcMeals r = { r with
      breakfast := if minutesOf s ≤ 570 ∧ 540 ≤ o then 1 else 0
      amSnack   := if minutesOf s ≤ 660 ∧ 660 ≤ o then 1 else 0
      lunch     := if minutesOf s ≤ 780 ∧ 780 ≤ o then 1 else 0
      pmSnack   := if minutesOf s ≤ 900 ∧ 900 ≤ o then 1 else 0 } := by
  have htm : toMin r.inTime = some (.val (minutesOf s)) := by
    rw [hin]; exact toMin_of_valid hv
  have ho' : (toMin r.outTime).getD (JSNum.val (24 * 60)) = .val o := by
    cases h : toMin r.outTime with
    | none => simp [effOut, h] at ho; simp [h, ho]
    | some jn =>
      cases jn with
      | nan => simp [effOut, h] at ho
      | val n => simp [effOut, h] at ho; simp [h, ho]
  simp only [calcMeals, htm, ho', tm_bS, tm_bE, tm_am, tm_lu, tm_pm]
  simp [jsLeB, jsGeB]

/-- C1 witness: the theorem applied to a concrete record checked in at
09:00 and out at 16:00. -/
theorem calcMeals_valid_flags_witness :
    calcMeals (sampleRec (some "09:00".toList) (some "16:00".toList) 0 0 0 0) =
      { sampleRec (some "09:00".toList) (some "16:00".toList) 0 0 0 0 with
        breakfast := if minutesOf "09:00".toList ≤ 570 ∧ 540 ≤ (960 : Int) then 1 else 0
        amSnack   := if minutesOf "09:00".toList ≤ 660 ∧ 660 ≤ (960 : Int) then 1 else 0
        lunch     := if minutesOf "09:00".toList ≤ 780 ∧ 780 ≤ (960 : Int) then 1 else 0
        pmSnack   := if minutesOf "09:00".toList ≤ 900 ∧ 900 ≤ (960 : Int) then 1 else 0 } :=
  calcMeals_valid_flags _ _ 960 rfl (by decide) (by decide)

/-- C4 counterexample: `"25:00"` is not a valid clock string, yet
`calcMeals` does **not** return the record unchanged — the non-`null`
minute value 1500 triggers recalculation, which zeroes a previously-set
breakfast flag. -/
theorem calcMeals_invalid_inTime_changes :
    isValidHHMM "25:00".toList = false ∧
    calcMeals (sampleRec (some "25:00".toList) (some "16:00".toList) 1 0 0 0) ≠
      sampleRec (some "25:00".toList) (some "16:00".toList) 1 0 0 0 := by
  decide

/-- C4 (amended): `calcMeals` returns the record completely unchanged when
`inTime` is absent or the empty string (the only cases in which `toMin`
yields `null`); a non-empty invalid `inTime` still triggers
recalculation. -/
theorem calcMeals_empty_inTime_unchanged (r : RecordRow)
    (h : r.inTime = none ∨ r.inTime = some []) : calcMeals r = r :=
  calcMeals_of_empty h

/-- C4 witness: the amended theorem applied to a record with an empty
`inTime` and set flags. -/
theorem calcMeals_empty_inTime_unchanged_witness :
    calcMeals (sampleRec (some []) (some "16:00".toList) 1 1 0 0) =
      sampleRec (some []) (some "16:00".toList) 1 1 0 0 :=
  calcMeals_empty_inTime_unchanged _ (Or.inr rfl)

/-- C5 counterexample: with a valid check-in at 09:00 and the *invalid*
checkout string `"9:00"` (its slice `"9:"` parses to `NaN`), every flag
comparison against `o` fails, so breakfast is 0 — not the value 1 that the
end-of-day treatment (`outTime` = 1440 minutes, i.e. `"24:00"`) yields. -/
theorem calcMeals_invalid_out_not_end_of_day :
    isValidHHMM "9:00".toList = false ∧
    (calcMeals (sampleRec (some "09:00".toList) (some "9:00".toList) 0 0 0 0)).breakfast = 0 ∧
    (calcMeals (sampleRec (some "09:00".toList) (some "24:00".toList) 0 0 0 0)).breakfast = 1 := by
  decide

/-- C5 (amended): for a record with a valid `inTime` whose `outTime` is
absent or the empty string, `calcMeals` computes the meal flags exactly as
it would with end-of-day (1440 minutes = `"24:00"`) as the checkout time. -/
theorem calcMeals_absent_out_end_of_day (r : RecordRow) (s : JStr)
    (hin : r.inTime = some s) (hv : isValidHHMM s = true)
    (hout : r.outTime = none ∨ r.outTime = some []) :
    flagsOf (calcMeals r) =
      flagsOf (calcMeals { r with outTime := some "24:00".toList }) := by
  have htm : toMin r.inTime = some (.val (minutesOf s)) := by
    rw [hin]; exact toMin_of_valid hv
  have hoL : toMin r.outTime = none := by
    rcases hout with h | h <;> simp [toMin, h]
  have h24 : toMin (some ['2', '4', ':', '0', '0']) = some (.val 1440) := by decide
  simp [calcMeals, flagsOf, htm, hoL, h24]

/-- C5 witness: the amended theorem applied to a record checked in at 09:00
with an empty `outTime`. -/
theorem calcMeals_absent_out_end_of_day_witness :
    flagsOf (calcMeals (sampleRec (some "09:00".toList) (some []) 0 0 0 0)) =
      flagsOf (calcMeals { sampleRec (some "09:00".toList) (some []) 0 0 0 0 with
        outTime := some "24:00".toList }) :=
  calcMeals_absent_out_end_of_day _ _ rfl (by decide) (Or.inr rfl)

/-- C9: `calcMeals` is idempotent — applying it to its own output returns
the same record, for *every* record (flags and all other fields
unchanged by the second application). -/
theorem calcMeals_idempotent (r : RecordRow) :
    calcMeals (calcMeals r) = calcMeals r := by
  cases h : toMin r.inTime with
  | none => simp [calcMeals, h]
  | some i => simp [calcMeals, h]

/-- JS `String.prototype.trim`: strip whitespace from both ends. -/
def trimJS (s : JStr) : JStr :=
  ((s.dropWhile Char.isWhitespace).reverse.dropWhile Char.isWhitespace).reverse

/-- A `Partial<RecordRow>` patch as the app's operations build one: `none`
is a field that is absent from the patch object or bound to `undefined`
(which `stripUndefined` removes before the merge, making the two
indistinguishable from this point on).  The identity/key fields
(`id`, `date`, `kidId`, `kidName`, `updatedAt`) are never patched by any
operation and are omitted. -/
structure PatchRow where
  inTime : Option JStr := none
  outTime : Option JStr := none
  breakfast : Option Int := none
  amSnack : Option Int := none
  lunch : Option Int := none
  pmSnack : Option Int := none
  source : Option Source := none
  editedBy : Option JStr := none
  editReason : Option JStr := none
deriving DecidableEq, Repr

/-- The zeroed default record `upsertRecord` synthesizes when no record
exists for `(date, kid)` (`id` is `` `${date}_${kid.id}` ``). -/
def defaultRecord (date kidId kidName : JStr) : RecordRow :=
  { id := date ++ '_' :: kidId, date := date, kidId := kidId, kidName := kidName,
    inTime := some [], outTime := some [], breakfast := 0, amSnack := 0, lunch := 0,
    pmSnack := 0, source := some .auto, editedBy := none, editReason := some [],
    updatedAt := none }

/-- The object-spread merge `{...base, ...cleanedPatch, updatedAt: serverTimestamp()}`
of `upsertRecord`: patch fields override, fields absent from the (cleaned)
patch are preserved from the base, and a fresh timestamp is stamped. -/
def applyPatch (base : RecordRow) (p : PatchRow) (ts : Nat) : RecordRow :=
  { base with
    inTime := p.inTime.or base.inTime
    outTime := p.outTime.or base.outTime
    breakfast := p.breakfast.getD base.breakfast
    amSnack := p.amSnack.getD base.amSnack
    lunch := p.lunch.getD base.lunch
    pmSnack := p.pmSnack.getD base.pmSnack
    source := p.source.or base.source
    editedBy := p.editedBy.or base.editedBy
    editReason := p.editReason.or base.editReason
    updatedAt := some ts }

/-- `upsertRecord` from `src/App.tsx`, at the typed-record level: resolve
the base (existing record or zeroed default), merge the patch over it,
re-run `calcMeals`, stamp the timestamp.  (The document-level
`stripUndefined` of the write is treated separately, on the document
model.) -/
def upsertRecord (date kidId kidName : JStr) (existing : Option RecordRow)
    (p : PatchRow) (ts : Nat) : RecordRow :=
  let base := existing.getD (defaultRecord date kidId kidName)
  calcMeals (applyPatch base p ts)

/-- The patch built by `clearTimes`: empty both time strings and explicitly
zero all four meal flags. -/
def clearPatch (uid : Option JStr) : PatchRow :=
  { inTime := some [], outTime := some [], breakfast := some 0, amSnack := some 0,
    lunch := some 0, pmSnack := some 0, source := some .manual, editedBy := uid,
    editReason := some "Cleared times".toList }

/-- `saveManualTimes` from `src/App.tsx`, as the pure validation/patch
construction it performs: `none` models the rejection paths (alert, no
write, no state change); `some patch` is the patch handed to
`upsertRecord`.  (`outTrim || ""` equals `outTrim` for every string.) -/
def saveManualTimes (editIn editOut editReason : JStr) (uid : Option JStr) :
    Option PatchRow :=
  let inTrim := trimJS editIn
  let outTrim := trimJS editOut
  let reasonTrim := trimJS editReason
  if inTrim.isEmpty || !isValidHHMM inTrim then none
  else if !outTrim.isEmpty && !isValidHHMM outTrim then none
  else if !outTrim.isEmpty &&
      jsLtB ((toMin (some outTrim)).getD .nan) ((toMin (some inTrim)).getD .nan) then none
  else some { inTime := some inTrim, outTime := some outTrim, source := some .manual,
              editedBy := uid,
              editReason := if reasonTrim.isEmpty then none else some reasonTrim }

/-- C6: `saveManualTimes` rejects (no write) exactly when the trimmed in
time is empty or not a valid `HH:MM` string, or the trimmed out time is
non-empty and invalid, or the trimmed out time is non-empty and earlier in
minutes-of-day than the in time; otherwise the described patch is built.
Includes the three concrete rejections from the spec. -/
theorem saveManualTimes_spec (ein eout er : JStr) (uid : Option JStr) :
    (saveManualTimes ein eout er uid = none ↔
      (trimJS ein = [] ∨ isValidHHMM (trimJS ein) = false ∨
       (trimJS eout ≠ [] ∧ isValidHHMM (trimJS eout) = false) ∨
       (trimJS eout ≠ [] ∧ minutesOf (trimJS eout) < minutesOf (trimJS ein)))) ∧
    (saveManualTimes ein eout er uid ≠ none →
      saveManualTimes ein eout er uid = some
        { inTime := some (trimJS ein), outTime := some (trimJS eout),
          source := some .manual, editedBy := uid,
          editReason := if trimJS er = [] then none else some (trimJS er) }) ∧
    saveManualTimes "25:00".toList [] [] none = none ∧
    saveManualTimes "09:00".toList "08:00".toList [] none = none ∧
    saveManualTimes [] "10:00".toList [] none = none := by
  refine ⟨?_, ?_, by decide, by decide, by decide⟩ <;>
    simp only [saveManualTimes]
  · split_ifs with h1 h2 h3
    · simp only [Bool.or_eq_true, List.isEmpty_eq_true, Bool.not_eq_true'] at h1
      rcases h1 with h1 | h1
      · exact iff_of_true rfl (Or.inl h1)
      · exact iff_of_true rfl (Or.inr (Or.inl h1))
    · simp only [Bool.and_eq_true, Bool.not_eq_true', List.isEmpty_eq_true,
        Bool.not_eq_true] at h2
      exact iff_of_true rfl (Or.inr (Or.inr (Or.inl ⟨by simpa using h2.1, h2.2⟩)))
    · simp only [Bool.or_eq_true, List.isEmpty_eq_true, Bool.not_eq_true'] at h1
      push_neg at h1
      obtain ⟨hne, hviB⟩ := h1
      have hvi : isValidHHMM (trimJS ein) = true := by
        cases h : isValidHHMM (trimJS ein) with
        | false => exact absurd h hviB
        | true => rfl
      simp only [Bool.and_eq_true, Bool.not_eq_true', List.isEmpty_eq_true] at h3
      obtain ⟨hone, hlt⟩ := h3
      have hone' : trimJS eout ≠ [] := by simpa using hone
      have hvo : isValidHHMM (trimJS eout) = true := by
        cases h : isValidHHMM (trimJS eout) with
        | false =>
          exact absurd (by simp [Bool.and_eq_true, Bool.not_eq_true',
            List.isEmpty_eq_true, hone', h] : _) h2
        | true => rfl
      rw [toMin_of_valid hvi, toMin_of_valid hvo] at hlt
      simp only [Option.getD_some, jsLtB, decide_eq_true_eq] at hlt
      exact iff_of_true rfl (Or.inr (Or.inr (Or.inr ⟨hone', hlt⟩)))
    · simp only [Bool.or_eq_true, List.isEmpty_eq_true, Bool.not_eq_true'] at h1
      push_neg at h1
      obtain ⟨hne, hviB⟩ := h1
      have hvi : isValidHHMM (trimJS ein) = true := by
        cases h : isValidHHMM (trimJS ein) with
        | false => exact absurd h hviB
        | true => rfl
      constructor
      · intro h; exact absurd h (by simp)
      · rintro (h | h | ⟨ho1, ho2⟩ | ⟨ho1, ho2⟩)
        · exact absurd h hne
        · rw [h] at hvi; exact absurd hvi (by simp)
        · exact absurd (by simp [Bool.and_eq_true, Bool.not_eq_true',
            List.isEmpty_eq_true, ho1, ho2] : _) h2
        · have hvo : isValidHHMM (trimJS eout) = true := by
            cases h : isValidHHMM (trimJS eout) with
            | false =>
              exact absurd (by simp [Bool.and_eq_true, Bool.not_eq_true',
                List.isEmpty_eq_true, ho1, h] : _) h2
            | true => rfl
          exact absurd (by simp [Bool.and_eq_true, Bool.not_eq_true',
            List.isEmpty_eq_true, ho1, toMin_of_valid hvi, toMin_of_valid hvo,
            jsLtB, ho2] : _) h3
  · split_ifs with h1 h2 h3 h4 h5 <;> intro hne <;>
      simp_all [List.isEmpty_eq_true]

/-- C6 witness: a concrete accepted manual edit (with whitespace trimmed
and a non-empty reason). -/
theorem saveManualTimes_spec_witness :
    saveManualTimes "09:30".toList " 10:00 ".toList "late".toList (some "u1".toList) =
      some { inTime := some (trimJS "09:30".toList),
             outTime := some (trimJS " 10:00 ".toList),
             source := some .manual, editedBy := some "u1".toList,
             editReason := if trimJS "late".toList = [] then none
                           else some (trimJS "late".toList) } :=
  (saveManualTimes_spec "09:30".toList " 10:00 ".toList "late".toList
    (some "u1".toList)).2.1 (by decide)

/-- Clearing through the reconciler: since the Clear patch forces
`inTime := ""`, `calcMeals` skips recalculation and the merged record is
persisted as merged. -/
lemma upsert_clear_eq (date kidId kidName : JStr) (existing : Option RecordRow)
    (uid : Option JStr) (ts : Nat) :
    upsertRecord date kidId kidName existing (clearPatch uid) ts =
      applyPatch (existing.getD (defaultRecord date kidId kidName)) (clearPatch uid) ts := by
  simp only [upsertRecord]
  exact calcMeals_of_empty (Or.inr (by simp [applyPatch, clearPatch, Option.or]))

/-- C7 counterexample: after a Clear, two reconciler runs whose patches do
*not* supply a valid `inTime` (the first supplies none at all, the second
supplies the invalid string `"09:00x"`) still end with `breakfast = 1`:
the first because a patch may set a meal flag directly, the second because
`toMin` numerically parses the invalid string's slices and recalculates. -/
theorem clear_roundtrip_violation :
    isValidHHMM "09:00x".toList = false ∧
    (upsertRecord "2024-01-05".toList "k1".toList "Kid".toList
      (some (upsertRecord "2024-01-05".toList "k1".toList "Kid".toList
        (some (sampleRec (some "09:00".toList) (some "16:00".toList) 1 1 1 1))
        (clearPatch none) 0))
      { breakfast := some 1 } 1).breakfast = 1 ∧
    (upsertRecord "2024-01-05".toList "k1".toList "Kid".toList
      (some (upsertRecord "2024-01-05".toList "k1".toList "Kid".toList
        (some (sampleRec (some "09:00".toList) (some "16:00".toList) 1 1 1 1))
        (clearPatch none) 0))
      { inTime := some "09:00x".toList } 1).breakfast = 1 := by
  decide

/-- C7 (amended): a record cleared through the reconciler has all four
meal flags 0 and both time fields `""`; and any subsequent reconciler run
whose patch neither supplies a non-empty `inTime` nor directly sets a
meal-flag field leaves all four flags at 0 (no recalculation occurs while
`inTime` stays empty). -/
theorem clear_roundtrip (date kidId kidName : JStr) (existing : Option RecordRow)
    (uid : Option JStr) (ts : Nat) :
    ((upsertRecord date kidId kidName existing (clearPatch uid) ts).breakfast = 0 ∧
     (upsertRecord date kidId kidName existing (clearPatch uid) ts).amSnack = 0 ∧
     (upsertRecord date kidId kidName existing (clearPatch uid) ts).lunch = 0 ∧
     (upsertRecord date kidId kidName existing (clearPatch uid) ts).pmSnack = 0 ∧
     (upsertRecord date kidId kidName existing (clearPatch uid) ts).inTime = some [] ∧
     (upsertRecord date kidId kidName existing (clearPatch uid) ts).outTime = some []) ∧
    (∀ (p : PatchRow) (ts2 : Nat),
      (p.inTime = none ∨ p.inTime = some []) →
      p.breakfast = none → p.amSnack = none → p.lunch = none → p.pmSnack = none →
      ((upsertRecord date kidId kidName
          (some (upsertRecord date kidId kidName existing (clearPatch uid) ts))
          p ts2).breakfast = 0 ∧
       (upsertRecord date kidId kidName
          (some (upsertRecord date kidId kidName existing (clearPatch uid) ts))
          p ts2).amSnack = 0 ∧
       (upsertRecord date kidId kidName
          (some (upsertRecord date kidId kidName existing (clearPatch uid) ts))
          p ts2).lunch = 0 ∧
       (upsertRecord date kidId kidName
          (some (upsertRecord date kidId kidName existing (clearPatch uid) ts))
          p ts2).pmSnack = 0)) := by
  have hc := upsert_clear_eq date kidId kidName existing uid ts
  have hfields :
      (upsertRecord date kidId kidName existing (clearPatch uid) ts).breakfast = 0 ∧
      (upsertRecord date kidId kidName existing (clearPatch uid) ts).amSnack = 0 ∧
      (upsertRecord date kidId kidName existing (clearPatch uid) ts).lunch = 0 ∧
      (upsertRecord date kidId kidName existing (clearPatch uid) ts).pmSnack = 0 ∧
      (upsertRecord date kidId kidName existing (clearPatch uid) ts).inTime = some [] ∧
      (upsertRecord date kidId kidName existing (clearPatch uid) ts).outTime = some [] := by
    rw [hc]
    simp [applyPatch, clearPatch, Option.or]
  refine ⟨hfields, ?_⟩
  intro p ts2 hpin hb ha hl hp
  obtain ⟨hb0, ha0, hl0, hp0, hin0, -⟩ := hfields
  have hin2 : (applyPatch (upsertRecord date kidId kidName existing (clearPatch uid) ts)
      p ts2).inTime = some [] := by
    rcases hpin with h | h <;> simp [applyPatch, Option.or, h, hin0]
  have hstep : upsertRecord date kidId kidName
      (some (upsertRecord date kidId kidName existing (clearPatch uid) ts)) p ts2 =
      calcMeals (applyPatch (upsertRecord date kidId kidName existing (clearPatch uid) ts)
        p ts2) := rfl
  rw [hstep, calcMeals_of_empty (Or.inr hin2)]
  simp [applyPatch, hb, ha, hl, hp, hb0, ha0, hl0, hp0]

/-- C7 witness: the amended theorem applied to a concrete cleared record
and a concrete check-out-style follow-up patch. -/
theorem clear_roundtrip_witness :
    (upsertRecord "2024-01-05".toList "k1".toList "Kid".toList
      (some (upsertRecord "2024-01-05".toList "k1".toList "Kid".toList
        (some (sampleRec (some "09:00".toList) (some "16:00".toList) 1 1 1 1))
        (clearPatch none) 0))
      { outTime := some "17:00".toList, source := some .auto } 1).breakfast = 0 ∧
    (upsertRecord "2024-01-05".toList "k1".toList "Kid".toList
      (some (upsertRecord "2024-01-05".toList "k1".toList "Kid".toList
        (some (sampleRec (some "09:00".toList) (some "16:00".toList) 1 1 1 1))
        (clearPatch none) 0))
      { outTime := some "17:00".toList, source := some .auto } 1).amSnack = 0 ∧
    (upsertRecord "2024-01-05".toList "k1".toList "Kid".toList
      (some (upsertRecord "2024-01-05".toList "k1".toList "Kid".toList
        (some (sampleRec (some "09:00".toList) (some "16:00".toList) 1 1 1 1))
        (clearPatch none) 0))
      { outTime := some "17:00".toList, source := some .auto } 1).lunch = 0 ∧
    (upsertRecord "2024-01-05".toList "k1".toList "Kid".toList
      (some (upsertRecord "2024-01-05".toList "k1".toList "Kid".toList
        (some (sampleRec (some "09:00".toList) (some "16:00".toList) 1 1 1 1))
        (clearPatch none) 0))
      { outTime := some "17:00".toList, source := some .auto } 1).pmSnack = 0 :=
  (clear_roundtrip "2024-01-05".toList "k1".toList "Kid".toList
    (some (sampleRec (some "09:00".toList) (some "16:00".toList) 1 1 1 1)) none 0).2
    { outTime := some "17:00".toList, source := some .auto } 1
    (Or.inl rfl) rfl rfl rfl rfl

lemma toMin_digits (a b c d : Char) (ha : a.isDigit = true) (hb : b.isDigit = true)
    (hc : c.isDigit = true) (hd : d.isDigit = true) :
    toMin (some [a, b, ':', c, d]) = some (.val (minutesOf [a, b, ':', c, d])) := by
  simp [toMin, jsStr2num, jsMul, jsAdd, minutesOf, digitsVal, List.all_cons, ha, hb, hc, hd]
  ring

/-- C10: `isValidHHMM` imposes no upper bound on the minutes field — on any
two-digits/colon/two-digits string it returns true exactly when the
denoted `60*hh + mm` lies in `[0, 1440)`; in particular `"09:75"` (615
minutes) is accepted, and the manual-edit operation accepts it as a valid
In time. -/
theorem isValidHHMM_minutes_spec :
    (∀ a b c d : Char, a.isDigit = true → b.isDigit = true → c.isDigit = true →
      d.isDigit = true →
      (isValidHHMM [a, b, ':', c, d] = true ↔
        (0 ≤ minutesOf [a, b, ':', c, d] ∧ minutesOf [a, b, ':', c, d] < 1440))) ∧
    isValidHHMM "09:75".toList = true ∧
    minutesOf "09:75".toList = 615 ∧
    saveManualTimes "09:75".toList [] [] none =
      some { inTime := some "09:75".toList, outTime := some [], source := some .manual,
             editedBy := none, editReason := none } := by
  refine ⟨?_, by decide, by decide, by decide⟩
  intro a b c d ha hb hc hd
  simp [isValidHHMM, ha, hb, hc, hd, toMin_digits a b c d ha hb hc hd]

/-- C10 witness: the general characterization applied at `"09:75"`. -/
theorem isValidHHMM_minutes_spec_witness :
    isValidHHMM ['0', '9', ':', '7', '5'] = true ↔
      (0 ≤ minutesOf ['0', '9', ':', '7', '5'] ∧ minutesOf ['0', '9', ':', '7', '5'] < 1440) :=
  isValidHHMM_minutes_spec.1 '0' '9' '7' '5' (by decide) (by decide) (by decide) (by decide)

/-- A JS value as stored in a record document: a string, a number, the
`undefined` placeholder, or the opaque `serverTimestamp()` sentinel. -/
inductive JSVal where
  | str : JStr → JSVal
  | num : ℚ → JSVal
  | undef : JSVal
  | tsSentinel : JSVal
deriving DecidableEq, Repr

/-- A JS object as its ordered field list (`Object.entries` view).  Object
literals never repeat a key. -/
abbrev Doc := List (String × JSVal)

/-- First-match association lookup (JS property access on unique keys). -/
def mapGet {K V : Type} [DecidableEq K] (k : K) : List (K × V) → Option V
  | [] => none
  | (k', v') :: rest => if k' = k then some v' else mapGet k rest

/-- `stripUndefined` from `src/App.tsx`: copy every entry whose value is
not `undefined` (Firestore rejects `undefined`). -/
def stripUndefined (d : Doc) : Doc :=
  d.filter (fun kv => kv.2 != JSVal.undef)

/-- JS object spread `{...base, ...patch}`: the result has base's keys in
base order (with patch values where the patch overrides) followed by the
patch's new keys in patch order. -/
def spreadDoc (base patch : Doc) : Doc :=
  base.map (fun kv => (kv.1, (mapGet kv.1 patch).getD kv.2)) ++
    patch.filter (fun kv => (mapGet kv.1 base).isNone)

/-- Reading a string-typed field off a document: an absent key, an
`undefined` value, or a non-string value all behave as "no string" (and
`toMin` then yields `null`). -/
def getStrField (d : Doc) (k : String) : Option JStr :=
  match mapGet k d with
  | some (.str s) => some s
  | _ => none

/-- `calcMeals` at the document level (the merged object `upsertRecord`
passes to it is a plain JS object). -/
def calcMealsDoc (d : Doc) : Doc :=
  let i? := toMin (getStrField d "inTime")
  let o := (toMin (getStrField d "outTime")).getD (JSNum.val (24 * 60))
  match i? with
  | none => d
  | some i =>
    let bS := (toMin (some MEALS_breakfast_start)).getD .nan
    let bE := (toMin (some MEALS_breakfast_end)).getD .nan
    let mealAt := fun (t : JStr) =>
      let m := (toMin (some t)).getD .nan
      jsLeB i m && jsGeB o m
    spreadDoc d
      [("breakfast", .num (if jsLeB i bE && jsGeB o bS then 1 else 0)),
       ("amSnack", .num (if mealAt MEALS_amSnack then 1 else 0)),
       ("lunch", .num (if mealAt MEALS_lunch then 1 else 0)),
       ("pmSnack", .num (if mealAt MEALS_pmSnack then 1 else 0))]

/-- `upsertRecord`'s write, at the document level: clean the patch, merge
it over the base with a fresh timestamp, recalculate meals, and strip
`undefined` fields before `setDoc`. -/
def upsertWriteDoc (base patch : Doc) : Doc :=
  let cleanedPatch := stripUndefined patch
  let merged := calcMealsDoc (spreadDoc (spreadDoc base cleanedPatch)
    [("updatedAt", .tsSentinel)])
  stripUndefined merged

/-- C8: for every base document and every patch, the document that
`upsertRecord` hands to `setDoc` contains no field bound to `undefined`,
so the store's rejection branch for such placeholders is unreachable. -/
theorem upsertWrite_no_undefined (base patch : Doc) (k : String) (v : JSVal)
    (hmem : (k, v) ∈ upsertWriteDoc base patch) : v ≠ .undef := by
  unfold upsertWriteDoc at hmem
  have := List.of_mem_filter hmem
  simpa using this

/-- C8 witness: a concrete upsert whose patch carries an `undefined`
`editedBy`; the written document contains the overridden `inTime`, and the
theorem applies to it. -/
theorem upsertWrite_no_undefined_witness :
    ("inTime", JSVal.str "09:00".toList) ∈
      upsertWriteDoc
        [("id", JSVal.str "2024-01-05_k1".toList),
         ("date", JSVal.str "2024-01-05".toList),
         ("inTime", JSVal.str "08:00".toList),
         ("outTime", JSVal.str []),
         ("breakfast", JSVal.num 0)]
        [("inTime", JSVal.str "09:00".toList),
         ("source", JSVal.str "manual".toList),
         ("editedBy", JSVal.undef)] ∧
    JSVal.str "09:00".toList ≠ JSVal.undef :=
  ⟨by decide,
   upsertWrite_no_undefined
     [("id", JSVal.str "2024-01-05_k1".toList),
      ("date", JSVal.str "2024-01-05".toList),
      ("inTime", JSVal.str "08:00".toList),
      ("outTime", JSVal.str []),
      ("breakfast", JSVal.num 0)]
     [("inTime", JSVal.str "09:00".toList),
      ("source", JSVal.str "manual".toList),
      ("editedBy", JSVal.undef)]
     "inTime" (JSVal.str "09:00".toList) (by decide)⟩

/-- `ReimbursementRates` from `src/App.tsx` (dollar amounts as exact
rationals; `updatedAt` is the opaque server timestamp). -/
structure ReimbursementRates where
  year : Int
  breakfast : ℚ
  snack : ℚ
  lunch : ℚ
  updatedAt : Option Nat
deriving DecidableEq, Repr

/-- The zero rate set `{year: y, breakfast: 0, snack: 0, lunch: 0}` (no
`updatedAt` field). -/
def zeroRates (y : Int) : ReimbursementRates :=
  { year := y, breakfast := 0, snack := 0, lunch := 0, updatedAt := none }

/-- The `ratesByYear` state (`Record<number, ReimbursementRates>`) as its
entry list; a JS object holds at most one entry per key. -/
abbrev RatesMap := List (Int × ReimbursementRates)

/-- The scan `for (const yr of years) { if (yr <= y) best = yr; else break; }`
over the (sorted) known years. -/
def bestPrior (y : Int) (best : Option Int) : List Int → Option Int
  | [] => best
  | yr :: rest => if yr ≤ y then bestPrior y (some yr) rest else best

/-- `getRatesForYear` from `src/App.tsx`: exact year if present, else the
scan over the ascending-sorted known years for the nearest prior year,
else the zero rate set.  (`.filter(Number.isFinite)` is the identity here
because every key is an actual year number; `ratesByYear[best]` is fetched
with a default that is never used because `best` is always a key.) -/
def getRatesForYear (m : RatesMap) (y : Int) : ReimbursementRates :=
  match mapGet y m with
  | some ex => ex
  | none =>
    let years := (m.map Prod.fst).mergeSort (fun a b => decide (a ≤ b))
    match bestPrior y none years with
    | some best => (mapGet best m).getD (zeroRates y)
    | none => zeroRates y

lemma mapGet_of_mem_nodup {K V : Type} [DecidableEq K] :
    ∀ {l : List (K × V)}, (l.map Prod.fst).Nodup →
      ∀ {k : K} {v : V}, (k, v) ∈ l → mapGet k l = some v := by
  intro l
  induction l with
  | nil => intro _ k v h; exact absurd h (List.not_mem_nil _)
  | cons hd tl ih =>
    intro hnd k v h
    rw [List.map_cons, List.nodup_cons] at hnd
    rcases List.mem_cons.mp h with h | h
    · rw [← h]; simp [mapGet]
    · have hk : hd.1 ≠ k := by
        intro he
        exact hnd.1 (he ▸ List.mem_map_of_mem Prod.fst h)
      simp [mapGet, hk, ih hnd.2 h]

lemma mem_of_mapGet_some {K V : Type} [DecidableEq K] :
    ∀ {l : List (K × V)} {k : K} {v : V}, mapGet k l = some v → (k, v) ∈ l := by
  intro l
  induction l with
  | nil => intro k v h; exact absurd h (by simp [mapGet])
  | cons hd tl ih =>
    intro k v h
    unfold mapGet at h
    split_ifs at h with he
    · rw [Option.some_inj] at h
      exact List.mem_cons.mpr (Or.inl (by rw [← he, ← h]))
    · exact List.mem_cons.mpr (Or.inr (ih h))

lemma getLast?_cons_or {α : Type} (x : α) (l : List α) :
    (x :: l).getLast? = l.getLast?.or (some x) := by
  induction l generalizing x with
  | nil => simp
  | cons z t ih =>
    rw [List.getLast?_cons_cons, ih z, Option.or_assoc, Option.or_some]

lemma bestPrior_sorted (y : Int) :
    ∀ (l : List Int), l.Pairwise (· ≤ ·) → ∀ acc,
      bestPrior y acc l = ((l.filter (fun x => decide (x ≤ y))).getLast?).or acc := by
  intro l
  induction l with
  | nil => intro _ acc; simp [bestPrior]
  | cons x rest ih =>
    intro hs acc
    rw [List.pairwise_cons] at hs
    by_cases hxy : x ≤ y
    · rw [List.filter_cons_of_pos (by simpa using hxy)]
      rw [bestPrior, if_pos hxy, ih hs.2 (some x), getLast?_cons_or, Option.or_assoc,
        Option.or_some]
    · rw [List.filter_cons_of_neg (by simpa using hxy)]
      have hrest : rest.filter (fun x => decide (x ≤ y)) = [] := by
        rw [List.filter_eq_nil_iff]
        intro z hz
        simp only [decide_eq_true_eq]
        intro hzy
        exact hxy (le_trans (hs.1 z hz) hzy)
      rw [bestPrior, if_neg hxy, hrest, List.getLast?_nil, Option.none_or]

lemma getLast?_of_max {b : Int} :
    ∀ {l : List Int}, l.Pairwise (· ≤ ·) → b ∈ l → (∀ x ∈ l, x ≤ b) →
      l.getLast? = some b := by
  intro l
  induction l with
  | nil => intro _ h _; exact absurd h (List.not_mem_nil _)
  | cons x rest ih =>
    intro hs hb hmax
    rw [List.pairwise_cons] at hs
    by_cases hbr : b ∈ rest
    · rw [getLast?_cons_or, ih hs.2 hbr (fun z hz => hmax z (List.mem_cons_of_mem x hz)),
        Option.or_some]
    · have hxb : x = b := by
        rcases List.mem_cons.mp hb with h | h
        · exact h.symm
        · exact absurd h hbr
      have hrest : rest = [] := by
        cases hr : rest with
        | nil => rfl
        | cons z t =>
          have hz : z ∈ rest := by rw [hr]; exact List.mem_cons_self z t
          have h1 : x ≤ z := hs.1 z hz
          have h2 : z ≤ b := hmax z (List.mem_cons_of_mem x hz)
          have : z = b := le_antisymm h2 (hxb ▸ h1)
          exact absurd (this ▸ hz) hbr
      rw [hrest, hxb]
      rfl

lemma sortedKeys_pairwise (ks : List Int) :
    (ks.mergeSort (fun a b => decide (a ≤ b))).Pairwise (· ≤ ·) := by
  have h : (ks.mergeSort (fun a b => decide (a ≤ b))).Pairwise
      (fun a b : Int => decide (a ≤ b) = true) := by
    apply List.sorted_mergeSort
    · intro a b c hab hbc
      simp only [decide_eq_true_eq] at *
      exact le_trans hab hbc
    · intro a b
      simp only [Bool.or_eq_true, decide_eq_true_eq]
      exact Int.le_total a b
  exact h.imp (by simp)

lemma getRatesForYear_exact {m : RatesMap} {y : Int}
    (hnd : (m.map Prod.fst).Nodup) {v : ReimbursementRates} (h : (y, v) ∈ m) :
    getRatesForYear m y = v := by
  unfold getRatesForYear
  rw [mapGet_of_mem_nodup hnd h]

lemma getRatesForYear_eq_of_none {m : RatesMap} {y : Int} (hno : mapGet y m = none) :
    getRatesForYear m y =
      match bestPrior y none ((m.map Prod.fst).mergeSort (fun a b => decide (a ≤ b))) with
      | some best => (mapGet best m).getD (zeroRates y)
      | none => zeroRates y := by
  unfold getRatesForYear
  rw [hno]

lemma getRatesForYear_prior {m : RatesMap} {y b : Int}
    (hnd : (m.map Prod.fst).Nodup) (hno : mapGet y m = none)
    {v : ReimbursementRates} (hbv : (b, v) ∈ m) (hby : b ≤ y)
    (hmax : ∀ b' ∈ m.map Prod.fst, b' ≤ y → b' ≤ b) :
    getRatesForYear m y = v := by
  rw [getRatesForYear_eq_of_none hno]
  have hsorted := sortedKeys_pairwise (m.map Prod.fst)
  have hbmem : b ∈ (m.map Prod.fst).mergeSort (fun a b => decide (a ≤ b)) :=
    List.mem_mergeSort.mpr (List.mem_map_of_mem Prod.fst hbv)
  have hfil : (((m.map Prod.fst).mergeSort (fun a b => decide (a ≤ b))).filter
      (fun x => decide (x ≤ y))).getLast? = some b := by
    apply getLast?_of_max (hsorted.filter _)
    · exact List.mem_filter.mpr ⟨hbmem, by simpa using hby⟩
    · intro x hx
      rw [List.mem_filter] at hx
      exact hmax x (List.mem_mergeSort.mp hx.1) (by simpa using hx.2)
  rw [bestPrior_sorted y _ hsorted none, hfil, Option.or_some]
  simp [mapGet_of_mem_nodup hnd hbv]

lemma getRatesForYear_none {m : RatesMap} {y : Int}
    (hnone : ∀ b ∈ m.map Prod.fst, ¬ b ≤ y) :
    getRatesForYear m y = zeroRates y := by
  have hno : mapGet y m = none := by
    cases h : mapGet y m with
    | none => rfl
    | some v =>
      exact absurd (le_refl y)
        (hnone y (List.mem_map_of_mem Prod.fst (mem_of_mapGet_some h)))
  rw [getRatesForYear_eq_of_none hno]
  have hsorted := sortedKeys_pairwise (m.map Prod.fst)
  have hfil : ((m.map Prod.fst).mergeSort (fun a b => decide (a ≤ b))).filter
      (fun x => decide (x ≤ y)) = [] := by
    rw [List.filter_eq_nil_iff]
    intro z hz
    simpa using hnone z (List.mem_mergeSort.mp hz)
  rw [bestPrior_sorted y _ hsorted none, hfil]
  rfl

/-- C2: `getRatesForYear` returns the rate set stored under the target
year when one exists; otherwise the set of the maximum stored year that is
at most the target, when one exists; otherwise the zero rate set stamped
with the target year — never a strictly later stored year.  With rates
stored for exactly {2022, 2024}: 2023 resolves to the 2022 set, 2021 to
the zero set, 2024 to the stored 2024 set. -/
theorem getRatesForYear_spec (m : RatesMap) (y : Int)
    (hnd : (m.map Prod.fst).Nodup) :
    (∀ v, (y, v) ∈ m → getRatesForYear m y = v) ∧
    ((∀ v, (y, v) ∉ m) →
      ∀ b v, (b, v) ∈ m → b ≤ y → (∀ b' ∈ m.map Prod.fst, b' ≤ y → b' ≤ b) →
      getRatesForYear m y = v) ∧
    ((∀ b ∈ m.map Prod.fst, ¬ b ≤ y) → getRatesForYear m y = zeroRates y) ∧
    (∀ a c : ReimbursementRates,
      getRatesForYear [(2022, a), (2024, c)] 2023 = a ∧
      getRatesForYear [(2022, a), (2024, c)] 2021 = zeroRates 2021 ∧
      getRatesForYear [(2022, a), (2024, c)] 2024 = c) := by
  refine ⟨fun v h => getRatesForYear_exact hnd h, ?_, getRatesForYear_none, ?_⟩
  · intro hno b v hbv hby hmax
    have hno' : mapGet y m = none := by
      cases h : mapGet y m with
      | none => rfl
      | some v' => exact absurd (mem_of_mapGet_some h) (hno v')
    exact getRatesForYear_prior hnd hno' hbv hby hmax
  · intro a c
    refine ⟨?_, ?_, ?_⟩
    · exact @getRatesForYear_prior [(2022, a), (2024, c)] 2023 2022 (by simp)
        (by simp [mapGet]) a (by simp) (by decide)
        (by intro b' hb' hle; simp at hb'; rcases hb' with h | h <;> omega)
    · exact getRatesForYear_none
        (by intro b hb; simp at hb; rcases hb with h | h <;> omega)
    · exact getRatesForYear_exact (by simp) (by simp)

/-- C2 witness: the {2022, 2024} example instantiated with concrete rate
sets. -/
theorem getRatesForYear_spec_witness :
    getRatesForYear [(2022, ⟨2022, 2, 1, 7/2, none⟩), (2024, ⟨2024, 3, 2, 4, none⟩)]
      2023 = ⟨2022, 2, 1, 7/2, none⟩ :=
  ((getRatesForYear_spec
      [(2022, ⟨2022, 2, 1, 7/2, none⟩), (2024, ⟨2024, 3, 2, 4, none⟩)] 2023
      (by decide)).2.2.2 ⟨2022, 2, 1, 7/2, none⟩ ⟨2024, 3, 2, 4, none⟩).1

/-- `yearFromDate` from `src/App.tsx`: `Number(d.slice(0, 4))`.  Dates are
`YYYY-MM-DD` strings, so the slice is an all-digit string and this is its
decimal value (the `NaN` behaviour on malformed dates is outside the
aggregation theorems' scope, which assume digit prefixes). -/
def yearFromDate (d : JStr) : Int := digitsVal (d.take 4)

/-- `monthFromDate` from `src/App.tsx`: `d.slice(0, 7)` (`YYYY-MM`). -/
def monthFromDate (d : JStr) : JStr := d.take 7

/-- `round2` from `src/App.tsx`: `Math.round(n * 100) / 100`
(`Math.round x = ⌊x + 1/2⌋`, halves rounding toward `+∞`). -/
def round2 (q : ℚ) : ℚ := ((⌊q * 100 + 1 / 2⌋ : Int) : ℚ) / 100

/-- `String.prototype.localeCompare` ascending comparison, which on the
app's ASCII `YYYY-MM` keys is plain lexicographic order. -/
def jstrLe : JStr → JStr → Bool
  | [], _ => true
  | _ :: _, [] => false
  | a :: as, b :: bs => if a < b then true else if a = b then jstrLe as bs else false

lemma jstrLe_trans : ∀ x y z : JStr, jstrLe x y = true → jstrLe y z = true →
    jstrLe x z = true := by
  intro x
  induction x with
  | nil => intro y z _ _; rfl
  | cons a as ih =>
    intro y z hxy hyz
    cases y with
    | nil => exact absurd hxy (by simp [jstrLe])
    | cons b bs =>
      cases z with
      | nil => exact absurd hyz (by simp [jstrLe])
      | cons c cs =>
        unfold jstrLe at hxy hyz ⊢
        by_cases hab : a < b
        · by_cases hbc : b < c
          · rw [if_pos (lt_trans hab hbc)]
          · by_cases hbc' : b = c
            · subst hbc'
              rw [if_pos hab]
            · rw [if_neg hbc, if_neg hbc'] at hyz
              exact absurd hyz (by simp)
        · by_cases hab' : a = b
          · subst hab'
            rw [if_neg hab, if_pos rfl] at hxy
            by_cases hbc : a < c
            · rw [if_pos hbc]
            · by_cases hbc' : a = c
              · subst hbc'
                rw [if_neg hbc, if_pos rfl] at hyz ⊢
                exact ih bs cs hxy hyz
              · rw [if_neg hbc, if_neg hbc'] at hyz
                exact absurd hyz (by simp)
          · rw [if_neg hab, if_neg hab'] at hxy
            exact absurd hxy (by simp)

lemma jstrLe_total : ∀ x y : JStr, (jstrLe x y || jstrLe y x) = true := by
  intro x
  induction x with
  | nil => intro y; simp [jstrLe]
  | cons a as ih =>
    intro y
    cases y with
    | nil => simp [jstrLe]
    | cons b bs =>
      unfold jstrLe
      rcases lt_trichotomy a b with h | h | h
      · simp [h]
      · subst h
        simpa [lt_irrefl] using ih bs
      · simp [h, not_lt_of_lt h, (ne_of_lt h).symm]

/-- JS `Map.prototype.set`: replace in place if the key exists, else append. -/
def mapSet {K V : Type} [DecidableEq K] (k : K) (v : V) :
    List (K × V) → List (K × V)
  | [] => [(k, v)]
  | (k', v') :: rest => if k' = k then (k, v) :: rest else (k', v') :: mapSet k v rest

lemma mapGet_mapSet_self {K V : Type} [DecidableEq K] (k : K) (v : V) :
    ∀ l : List (K × V), mapGet k (mapSet k v l) = some v := by
  intro l
  induction l with
  | nil => simp [mapSet, mapGet]
  | cons hd tl ih =>
    obtain ⟨k', v'⟩ := hd
    by_cases h : k' = k <;> simp [mapSet, mapGet, h, ih]

lemma mapGet_mapSet_ne {K V : Type} [DecidableEq K] {k k' : K} (v : V)
    (h : k' ≠ k) : ∀ l : List (K × V), mapGet k' (mapSet k v l) = mapGet k' l := by
  intro l
  induction l with
  | nil => simp [mapSet, mapGet, Ne.symm h]
  | cons hd tl ih =>
    obtain ⟨k0, v0⟩ := hd
    by_cases hk : k0 = k
    · subst hk
      simp [mapSet, mapGet, Ne.symm h]
    · by_cases hk' : k0 = k' <;> simp [mapSet, mapGet, hk, hk', ih, h]

lemma mem_keys_mapSet {K V : Type} [DecidableEq K] {x k : K} {v : V} :
    ∀ {l : List (K × V)}, x ∈ (mapSet k v l).map Prod.fst →
      x ∈ l.map Prod.fst ∨ x = k := by
  intro l
  induction l with
  | nil =>
    intro h
    simp only [mapSet, List.map_cons, List.map_nil, List.mem_singleton] at h
    exact Or.inr h
  | cons hd tl ih =>
    obtain ⟨k0, v0⟩ := hd
    intro h
    by_cases hk : k0 = k
    · subst hk
      rw [show mapSet k0 v ((k0, v0) :: tl) = (k0, v) :: tl from by simp [mapSet],
        List.map_cons, List.mem_cons] at h
      rcases h with h | h
      · exact Or.inr h
      · exact Or.inl (List.mem_cons_of_mem _ h)
    · rw [show mapSet k v ((k0, v0) :: tl) = (k0, v0) :: mapSet k v tl from by
          simp [mapSet, hk],
        List.map_cons, List.mem_cons] at h
      rcases h with h | h
      · exact Or.inl (List.mem_cons.mpr (Or.inl h))
      · rcases ih h with h' | h'
        · exact Or.inl (List.mem_cons_of_mem _ h')
        · exact Or.inr h'

lemma nodup_mapSet {K V : Type} [DecidableEq K] (k : K) (v : V) :
    ∀ {l : List (K × V)}, (l.map Prod.fst).Nodup →
      ((mapSet k v l).map Prod.fst).Nodup := by
  intro l
  induction l with
  | nil => intro _; simp [mapSet]
  | cons hd tl ih =>
    obtain ⟨k0, v0⟩ := hd
    intro hnd
    simp only [List.map_cons, List.nodup_cons] at hnd
    by_cases hk : k0 = k
    · subst hk
      simp [mapSet, List.nodup_cons, hnd.1, hnd.2]
    · simp only [mapSet, if_neg hk, List.map_cons, List.nodup_cons]
      refine ⟨fun hmem => ?_, ih hnd.2⟩
      rcases mem_keys_mapSet hmem with h | h
      · exact hnd.1 h
      · exact hk h

/-- A row of the monthly reimbursement summary. -/
structure MonthRow where
  month : JStr
  year : Int
  breakfasts : Int
  snacks : Int
  lunches : Int
  total : ℚ
  rateYearUsed : Int
deriving DecidableEq, Repr

/-- A row of the annual reimbursement summary. -/
structure YearRow where
  year : Int
  breakfasts : Int
  snacks : Int
  lunches : Int
  total : ℚ
  rateYearUsed : Int
deriving DecidableEq, Repr

/-- Statement helper: the reimbursement amount of one record, as the spec
states it — `breakfastFlag*breakfastRate + (amSnack+pmSnack)*snackRate +
lunchFlag*lunchRate` with rates resolved for the record's date year.
(`x || 0` in the source is the identity on these integer flags and
non-negative rates.) -/
def recAmount (rm : RatesMap) (r : RecordRow) : ℚ :=
  (r.breakfast : ℚ) * (getRatesForYear rm (yearFromDate r.date)).breakfast +
    ((r.amSnack + r.pmSnack : Int) : ℚ) * (getRatesForYear rm (yearFromDate r.date)).snack +
    (r.lunch : ℚ) * (getRatesForYear rm (yearFromDate r.date)).lunch

/-- One iteration of the `monthlySummary` fold from `src/App.tsx`. -/
def monthlyStep (rm : RatesMap) (acc : List (JStr × MonthRow)) (r : RecordRow) :
    List (JStr × MonthRow) :=
  let month := monthFromDate r.date
  let year := yearFromDate r.date
  let rates := getRatesForYear rm year
  let breakfasts := r.breakfast
  let snacks := r.amSnack + r.pmSnack
  let lunches := r.lunch
  let amount := (breakfasts : ℚ) * rates.breakfast + (snacks : ℚ) * rates.snack +
    (lunches : ℚ) * rates.lunch
  let cur := (mapGet month acc).getD
    { month := month, year := year, breakfasts := 0, snacks := 0, lunches := 0,
      total := 0, rateYearUsed := rates.year }
  mapSet month
    { cur with
      breakfasts := cur.breakfasts + breakfasts
      snacks := cur.snacks + snacks
      lunches := cur.lunches + lunches
      total := cur.total + amount } acc

/-- `monthlySummary` from `src/App.tsx`: fold the records into a
month-keyed map, list the rows, sort ascending by month string, and round
each total to 2 decimals at output. -/
def monthlySummary (records : List RecordRow) (rm : RatesMap) : List MonthRow :=
  (((records.foldl (monthlyStep rm) []).map Prod.snd).mergeSort
      (fun a b => jstrLe a.month b.month)).map
    (fun r => { r with total := round2 r.total })

/-- The records of one month. -/
def mFilter (recs : List RecordRow) (k : JStr) : List RecordRow :=
  recs.filter (fun r => decide (monthFromDate r.date = k))

/-- What a month-keyed accumulator row must hold after processing `recs`. -/
def MSpec (rm : RatesMap) (recs : List RecordRow) (k : JStr) (row : MonthRow) : Prop :=
  row.month = k ∧
  row.breakfasts = ((mFilter recs k).map (fun r => r.breakfast)).sum ∧
  row.snacks = ((mFilter recs k).map (fun r => r.amSnack + r.pmSnack)).sum ∧
  row.lunches = ((mFilter recs k).map (fun r => r.lunch)).sum ∧
  row.total = ((mFilter recs k).map (recAmount rm)).sum

/-- Invariant of the monthly fold. -/
def MInv (rm : RatesMap) (recs : List RecordRow) (acc : List (JStr × MonthRow)) : Prop :=
  (acc.map Prod.fst).Nodup ∧
  (∀ k row, mapGet k acc = some row → MSpec rm recs k row) ∧
  (∀ k, mapGet k acc = none → mFilter recs k = [])

lemma mFilter_snoc_ne {recs : List RecordRow} {r : RecordRow} {k : JStr}
    (hk : monthFromDate r.date ≠ k) : mFilter (recs ++ [r]) k = mFilter recs k := by
  simp [mFilter, List.filter_append, hk]

lemma mFilter_snoc_eq {recs : List RecordRow} {r : RecordRow} :
    mFilter (recs ++ [r]) (monthFromDate r.date) =
      mFilter recs (monthFromDate r.date) ++ [r] := by
  simp [mFilter, List.filter_append]

lemma MSpec_snoc_ne {rm : RatesMap} {recs : List RecordRow} {k : JStr} {row : MonthRow}
    {r : RecordRow} (hk : monthFromDate r.date ≠ k) (h : MSpec rm recs k row) :
    MSpec rm (recs ++ [r]) k row := by
  unfold MSpec at h ⊢
  rw [mFilter_snoc_ne hk]
  exact h

lemma monthlyStep_inv (rm : RatesMap) (recs : List RecordRow) (r : RecordRow)
    (acc : List (JStr × MonthRow)) (h : MInv rm recs acc) :
    MInv rm (recs ++ [r]) (monthlyStep rm acc r) := by
  obtain ⟨hnd, hsome, hnone⟩ := h
  have hcur0 : MSpec rm recs (monthFromDate r.date)
      ((mapGet (monthFromDate r.date) acc).getD
        { month := monthFromDate r.date, year := yearFromDate r.date, breakfasts := 0,
          snacks := 0, lunches := 0, total := 0,
          rateYearUsed := (getRatesForYear rm (yearFromDate r.date)).year }) := by
    cases hcur : mapGet (monthFromDate r.date) acc with
    | some cur => simpa using hsome _ cur hcur
    | none =>
      have hfil := hnone _ hcur
      simp [MSpec, hfil]
  obtain ⟨hm1, hm2, hm3, hm4, hm5⟩ := hcur0
  simp only [monthlyStep]
  refine ⟨nodup_mapSet _ _ hnd, ?_, ?_⟩
  · intro k row hget
    by_cases hk : k = monthFromDate r.date
    · subst hk
      rw [mapGet_mapSet_self] at hget
      obtain rfl := (Option.some.injEq _ _).mp hget
      refine ⟨hm1, ?_, ?_, ?_, ?_⟩ <;>
        simp [mFilter_snoc_eq, hm2, hm3, hm4, hm5, recAmount]
    · rw [mapGet_mapSet_ne _ hk] at hget
      exact MSpec_snoc_ne (fun he => hk he.symm) (hsome _ _ hget)
  · intro k hget
    by_cases hk : k = monthFromDate r.date
    · subst hk
      rw [mapGet_mapSet_self] at hget
      exact absurd hget (by simp)
    · rw [mapGet_mapSet_ne _ hk] at hget
      rw [mFilter_snoc_ne (fun he => hk he.symm)]
      exact hnone _ hget

lemma monthlyFold_inv (rm : RatesMap) :
    ∀ (l : List RecordRow) (recs : List RecordRow) (acc : List (JStr × MonthRow)),
      MInv rm recs acc → MInv rm (recs ++ l) (l.foldl (monthlyStep rm) acc) := by
  intro l
  induction l with
  | nil => intro recs acc h; simpa using h
  | cons r rest ih =>
    intro recs acc h
    have h2 := ih (recs ++ [r]) (monthlyStep rm acc r) (monthlyStep_inv rm recs r acc h)
    rw [List.append_assoc, List.singleton_append] at h2
    simpa using h2

lemma MInv_nil (rm : RatesMap) : MInv rm [] [] := by
  refine ⟨by simp, ?_, ?_⟩
  · intro k row hget
    exact absurd hget (by simp [mapGet])
  · intro k _
    simp [mFilter]

lemma monthlySummary_mem {records : List RecordRow} {rm : RatesMap} {row : MonthRow}
    (h : row ∈ monthlySummary records rm) :
    ∃ row0, MSpec rm records row.month row0 ∧
      row = { row0 with total := round2 row0.total } := by
  have hinv : MInv rm records (records.foldl (monthlyStep rm) []) := by
    simpa using monthlyFold_inv rm records [] [] (MInv_nil rm)
  unfold monthlySummary at h
  rw [List.mem_map] at h
  obtain ⟨row0, hmem, rfl⟩ := h
  rw [List.mem_mergeSort, List.mem_map] at hmem
  obtain ⟨⟨k, row1⟩, hkv, hsnd⟩ := hmem
  have hsnd' : row1 = row0 := hsnd
  rw [hsnd'] at hkv
  have hget := mapGet_of_mem_nodup hinv.1 hkv
  have hspec := hinv.2.1 k row0 hget
  have hmonth : row0.month = k := hspec.1
  refine ⟨row0, ?_, rfl⟩
  have heq : ({ row0 with total := round2 row0.total } : MonthRow).month = row0.month := rfl
  rw [heq, hmonth]
  exact hspec

lemma monthlySummary_sorted (records : List RecordRow) (rm : RatesMap) :
    ((monthlySummary records rm).map MonthRow.month).Pairwise
      (fun a b => jstrLe a b = true) := by
  unfold monthlySummary
  rw [List.map_map, List.pairwise_map]
  have h : (((records.foldl (monthlyStep rm) []).map Prod.snd).mergeSort
      (fun a b => jstrLe a.month b.month)).Pairwise
      (fun a b : MonthRow => jstrLe a.month b.month = true) := by
    apply List.sorted_mergeSort
    · intro a b c hab hbc
      exact jstrLe_trans _ _ _ hab hbc
    · intro a b
      exact jstrLe_total _ _
  exact h.imp (fun hab => hab)

/-- One iteration of the `annualSummary` fold from `src/App.tsx` (unlike
the monthly fold, it also refreshes `rateYearUsed` on every record). -/
def annualStep (rm : RatesMap) (acc : List (Int × YearRow)) (r : RecordRow) :
    List (Int × YearRow) :=
  let year := yearFromDate r.date
  let rates := getRatesForYear rm year
  let breakfasts := r.breakfast
  let snacks := r.amSnack + r.pmSnack
  let lunches := r.lunch
  let amount := (breakfasts : ℚ) * rates.breakfast + (snacks : ℚ) * rates.snack +
    (lunches : ℚ) * rates.lunch
  let cur := (mapGet year acc).getD
    { year := year, breakfasts := 0, snacks := 0, lunches := 0, total := 0,
      rateYearUsed := rates.year }
  mapSet year
    { cur with
      breakfasts := cur.breakfasts + breakfasts
      snacks := cur.snacks + snacks
      lunches := cur.lunches + lunches
      total := cur.total + amount
      rateYearUsed := rates.year } acc

/-- `annualSummary` from `src/App.tsx`: fold the records into a
year-keyed map, list the rows, sort ascending by year (`a.year - b.year`),
and round each total to 2 decimals at output. -/
def annualSummary (records : List RecordRow) (rm : RatesMap) : List YearRow :=
  (((records.foldl (annualStep rm) []).map Prod.snd).mergeSort
      (fun a b => decide (a.year ≤ b.year))).map
    (fun r => { r with total := round2 r.total })

/-- The records of one calendar year. -/
def aFilter (recs : List RecordRow) (y : Int) : List RecordRow :=
  recs.filter (fun r => decide (yearFromDate r.date = y))

/-- What a year-keyed accumulator row must hold after processing `recs`. -/
def ASpec (rm : RatesMap) (recs : List RecordRow) (y : Int) (row : YearRow) : Prop :=
  row.year = y ∧
  row.breakfasts = ((aFilter recs y).map (fun r => r.breakfast)).sum ∧
  row.snacks = ((aFilter recs y).map (fun r => r.amSnack + r.pmSnack)).sum ∧
  row.lunches = ((aFilter recs y).map (fun r => r.lunch)).sum ∧
  row.total = ((aFilter recs y).map (recAmount rm)).sum

/-- Invariant of the annual fold. -/
def AInv (rm : RatesMap) (recs : List RecordRow) (acc : List (Int × YearRow)) : Prop :=
  (acc.map Prod.fst).Nodup ∧
  (∀ y row, mapGet y acc = some row → ASpec rm recs y row) ∧
  (∀ y, mapGet y acc = none → aFilter recs y = [])

lemma aFilter_snoc_ne {recs : List RecordRow} {r : RecordRow} {y : Int}
    (hy : yearFromDate r.date ≠ y) : aFilter (recs ++ [r]) y = aFilter recs y := by
  simp [aFilter, List.filter_append, hy]

lemma aFilter_snoc_eq {recs : List RecordRow} {r : RecordRow} :
    aFilter (recs ++ [r]) (yearFromDate r.date) =
      aFilter recs (yearFromDate r.date) ++ [r] := by
  simp [aFilter, List.filter_append]

lemma ASpec_snoc_ne {rm : RatesMap} {recs : List RecordRow} {y : Int} {row : YearRow}
    {r : RecordRow} (hy : yearFromDate r.date ≠ y) (h : ASpec rm recs y row) :
    ASpec rm (recs ++ [r]) y row := by
  unfold ASpec at h ⊢
  rw [aFilter_snoc_ne hy]
  exact h

lemma annualStep_inv (rm : RatesMap) (recs : List RecordRow) (r : RecordRow)
    (acc : List (Int × YearRow)) (h : AInv rm recs acc) :
    AInv rm (recs ++ [r]) (annualStep rm acc r) := by
  obtain ⟨hnd, hsome, hnone⟩ := h
  have hcur0 : ASpec rm recs (yearFromDate r.date)
      ((mapGet (yearFromDate r.date) acc).getD
        { year := yearFromDate r.date, breakfasts := 0, snacks := 0, lunches := 0,
          total := 0, rateYearUsed := (getRatesForYear rm (yearFromDate r.date)).year }) := by
    cases hcur : mapGet (yearFromDate r.date) acc with
    | some cur => simpa using hsome _ cur hcur
    | none =>
      have hfil := hnone _ hcur
      simp [ASpec, hfil]
  obtain ⟨hm1, hm2, hm3, hm4, hm5⟩ := hcur0
  simp only [annualStep]
  refine ⟨nodup_mapSet _ _ hnd, ?_, ?_⟩
  · intro y row hget
    by_cases hy : y = yearFromDate r.date
    · subst hy
      rw [mapGet_mapSet_self] at hget
      obtain rfl := (Option.some.injEq _ _).mp hget
      refine ⟨hm1, ?_, ?_, ?_, ?_⟩ <;>
        simp [aFilter_snoc_eq, hm2, hm3, hm4, hm5, recAmount]
    · rw [mapGet_mapSet_ne _ hy] at hget
      exact ASpec_snoc_ne (fun he => hy he.symm) (hsome _ _ hget)
  · intro y hget
    by_cases hy : y = yearFromDate r.date
    · subst hy
      rw [mapGet_mapSet_self] at hget
      exact absurd hget (by simp)
    · rw [mapGet_mapSet_ne _ hy] at hget
      rw [aFilter_snoc_ne (fun he => hy he.symm)]
      exact hnone _ hget

lemma annualFold_inv (rm : RatesMap) :
    ∀ (l : List RecordRow) (recs : List RecordRow) (acc : List (Int × YearRow)),
      AInv rm recs acc → AInv rm (recs ++ l) (l.foldl (annualStep rm) acc) := by
  intro l
  induction l with
  | nil => intro recs acc h; simpa using h
  | cons r rest ih =>
    intro recs acc h
    have h2 := ih (recs ++ [r]) (annualStep rm acc r) (annualStep_inv rm recs r acc h)
    rw [List.append_assoc, List.singleton_append] at h2
    simpa using h2

lemma AInv_nil (rm : RatesMap) : AInv rm [] [] := by
  refine ⟨by simp, ?_, ?_⟩
  · intro y row hget
    exact absurd hget (by simp [mapGet])
  · intro y _
    simp [aFilter]

lemma annualSummary_mem {records : List RecordRow} {rm : RatesMap} {row : YearRow}
    (h : row ∈ annualSummary records rm) :
    ∃ row0, ASpec rm records row.year row0 ∧
      row = { row0 with total := round2 row0.total } := by
  have hinv : AInv rm records (records.foldl (annualStep rm) []) := by
    simpa using annualFold_inv rm records [] [] (AInv_nil rm)
  unfold annualSummary at h
  rw [List.mem_map] at h
  obtain ⟨row0, hmem, rfl⟩ := h
  rw [List.mem_mergeSort, List.mem_map] at hmem
  obtain ⟨⟨y, row1⟩, hkv, hsnd⟩ := hmem
  have hsnd' : row1 = row0 := hsnd
  rw [hsnd'] at hkv
  have hget := mapGet_of_mem_nodup hinv.1 hkv
  have hspec := hinv.2.1 y row0 hget
  have hyear : row0.year = y := hspec.1
  refine ⟨row0, ?_, rfl⟩
  have heq : ({ row0 with total := round2 row0.total } : YearRow).year = row0.year := rfl
  rw [heq, hyear]
  exact hspec

lemma annualSummary_sorted (records : List RecordRow) (rm : RatesMap) :
    ((annualSummary records rm).map YearRow.year).Pairwise (· ≤ ·) := by
  unfold annualSummary
  rw [List.map_map, List.pairwise_map]
  have h : (((records.foldl (annualStep rm) []).map Prod.snd).mergeSort
      (fun a b => decide (a.year ≤ b.year))).Pairwise
      (fun a b : YearRow => decide (a.year ≤ b.year) = true) := by
    apply List.sorted_mergeSort
    · intro a b c hab hbc
      simp only [decide_eq_true_eq] at *
      exact le_trans hab hbc
    · intro a b
      simp only [Bool.or_eq_true, decide_eq_true_eq]
      exact Int.le_total _ _
  exact h.imp (by simp)

/-- C3: every monthly summary row (keyed by the date's first 7 characters)
and annual summary row (keyed by the date's first 4 characters as a
number) accumulates its records' breakfast counts, combined
amSnack+pmSnack snack counts and lunch counts, and its total is the sum of
`breakfastFlag*breakfastRate + (amSnack+pmSnack)*snackRate +
lunchFlag*lunchRate` (rates resolved for each record's date year), rounded
to 2 decimals only after the fold; the rows are sorted ascending by key
(lexicographic months, numeric years). -/
theorem summaries_spec (records : List RecordRow) (rm : RatesMap)
    (_hd : ∀ r ∈ records, (r.date.take 4).all Char.isDigit = true) :
    (∀ row ∈ monthlySummary records rm,
      row.breakfasts = ((mFilter records row.month).map (fun r => r.breakfast)).sum ∧
      row.snacks = ((mFilter records row.month).map (fun r => r.amSnack + r.pmSnack)).sum ∧
      row.lunches = ((mFilter records row.month).map (fun r => r.lunch)).sum ∧
      row.total = round2 (((mFilter records row.month).map (recAmount rm)).sum)) ∧
    ((monthlySummary records rm).map MonthRow.month).Pairwise
      (fun a b => jstrLe a b = true) ∧
    (∀ row ∈ annualSummary records rm,
      row.breakfasts = ((aFilter records row.year).map (fun r => r.breakfast)).sum ∧
      row.snacks = ((aFilter records row.year).map (fun r => r.amSnack + r.pmSnack)).sum ∧
      row.lunches = ((aFilter records row.year).map (fun r => r.lunch)).sum ∧
      row.total = round2 (((aFilter records row.year).map (recAmount rm)).sum)) ∧
    ((annualSummary records rm).map YearRow.year).Pairwise (· ≤ ·) := by
  refine ⟨?_, monthlySummary_sorted records rm, ?_, annualSummary_sorted records rm⟩
  · intro row hrow
    obtain ⟨row0, hspec, hrow0⟩ := monthlySummary_mem hrow
    obtain ⟨-, h2, h3, h4, h5⟩ := hspec
    subst hrow0
    exact ⟨h2, h3, h4, by rw [h5]⟩
  · intro row hrow
    obtain ⟨row0, hspec, hrow0⟩ := annualSummary_mem hrow
    obtain ⟨-, h2, h3, h4, h5⟩ := hspec
    subst hrow0
    exact ⟨h2, h3, h4, by rw [h5]⟩

/-- C3 witness: the theorem applied to a concrete one-record day with a
2024 rate set (both sortedness conclusions extracted). -/
theorem summaries_spec_witness :
    ((monthlySummary [sampleRec (some "09:00".toList) (some "16:00".toList) 1 0 1 0]
        [(2024, ⟨2024, 2, 1, 7/2, none⟩)]).map MonthRow.month).Pairwise
      (fun a b => jstrLe a b = true) ∧
    ((annualSummary [sampleRec (some "09:00".toList) (some "16:00".toList) 1 0 1 0]
        [(2024, ⟨2024, 2, 1, 7/2, none⟩)]).map YearRow.year).Pairwise (· ≤ ·) :=
  ⟨(summaries_spec [sampleRec (some "09:00".toList) (some "16:00".toList) 1 0 1 0]
      [(2024, ⟨2024, 2, 1, 7/2, none⟩)] (by decide)).2.1,
   (summaries_spec [sampleRec (some "09:00".toList) (some "16:00".toList) 1 0 1 0]
      [(2024, ⟨2024, 2, 1, 7/2, none⟩)] (by decide)).2.2.2⟩
